import Mathlib

/-!
Shallow embedding of `keithleygui/main.py` (continuous-measurement fork of
keithleygui).  Pure helper functions are translated directly; the two Qt
background threads (`MeasureThread`, `RealtimeMeasureThread`) are embedded as
functions from their environment inputs (driver-call outcomes, polled flag
values, wall-clock and random oracles) to the list of Qt signals they emit.
Machine floats of the Python source are modelled as rationals.

The file is organised as definitions first, then lemmas and theorems.
-/

namespace KeithleyGui

/-! ## Definitions -/

/-! ### `_get_smus` (main.py lines 28-47) -/

/-- Mirrors the `while len(smu_list) < 2: smu_list.append("--")` loop at the
end of `_get_smus`. -/
def padSmuList (l : List String) : List String :=
  if _h : l.length < 2 then padSmuList (l ++ ["--"]) else l
termination_by 2 - l.length
decreasing_by simp [List.length_append]; omega

/-- `_get_smus(keithley)`.  `hasConnectedAttr` is `hasattr(keithley, 'connected')`,
`connected` is `keithley.connected`; `dirResult` is `some attrs` when
`dir(keithley)` (and the surrounding `try` body) succeeds with attribute list
`attrs`, and `none` when any exception is raised inside the `try` block. -/
def _get_smus (hasConnectedAttr connected : Bool) (dirResult : Option (List String)) :
    List String :=
  let smu_list :=
    if hasConnectedAttr && !connected then
      ["smu1", "smu2"]
    else
      match dirResult with
      | some attrs => attrs.filter (fun a => a.startsWith "smu")
      | none => ["smu1", "smu2"]
  padSmuList smu_list

/-! ### `KeithleyGuiApp._string_to_vd` (main.py lines 467-475) -/

/-- Result of a successfully parsed drain-voltage entry: either a float value
or the accepted literal string `"trailing"`. -/
inductive VdEntry where
  | value (x : ℚ)
  | trailingKw
deriving DecidableEq

/-- Python's substring test `needle in hay` on strings, as a scan over
character lists. -/
def listContains (needle : List Char) : List Char → Bool
  | [] => needle.isEmpty
  | c :: rest => needle.isPrefixOf (c :: rest) || listContains needle rest

/-- `_string_to_vd(string)`.  `parsed` is `some x` when Python's
`float(string)` succeeds with value `x` and `none` when it raises
`ValueError`; the function then falls back to the substring test
`"trailing" in string` and otherwise raises `ValueError("Invalid drain
voltage.")` (modelled by `Except.error`). -/
def _string_to_vd (parsed : Option ℚ) (s : String) : Except String VdEntry :=
  match parsed with
  | some x => Except.ok (VdEntry.value x)
  | none =>
    if listContains "trailing".data s.data then Except.ok VdEntry.trailingKw
    else Except.error "Invalid drain voltage."

/-! ### `SweepSettingsWidget` gate/drain selectors (main.py lines 102-169)

When fewer than three SMUs are selectable the padded SMU list has exactly two
entries, so the two combo boxes range over `Fin 2`.  A Qt
`QComboBox.setCurrentIndex` call emits `currentIndexChanged` (and hence runs
the connected handler) only when the stored index actually changes; the
handlers `on_smu_gate_changed` / `on_smu_drain_changed` in turn call
`setCurrentIndex` on the other combo box, which is modelled by the fueled
cascade below.  The cascade stabilises after at most two nested handler runs
(`setCurrentIndexCascade_stable`). -/

/-- Gate and drain combo-box indices of `SweepSettingsWidget` (two-SMU case). -/
structure SweepSel where
  smu_gate : Fin 2
  smu_drain : Fin 2
deriving DecidableEq

/-- The index the handlers force onto the other combo box: `0 ↦ 1`, `1 ↦ 0`
(the two `if int_smu == 0 / elif int_smu == 1` branches with
`len(self.smu_list) < 3`). -/
def otherIdx (i : Fin 2) : Fin 2 := if i = 0 then 1 else 0

/-- `setCurrentIndex` on one of the two combo boxes (`gateBox = true` for
`smu_gate`), together with the `currentIndexChanged` handler cascade it
triggers.  The fuel bounds the nesting depth of handler invocations. -/
def setCurrentIndexCascade : Nat → Bool → SweepSel → Fin 2 → SweepSel
  | 0, _, st, _ => st
  | fuel + 1, gateBox, st, i =>
    if gateBox then
      if st.smu_gate = i then st
      else
        let st1 : SweepSel := { st with smu_gate := i }
        setCurrentIndexCascade fuel false st1 (otherIdx i)
    else
      if st.smu_drain = i then st
      else
        let st1 : SweepSel := { st with smu_drain := i }
        setCurrentIndexCascade fuel true st1 (otherIdx i)

/-- The user picks gate SMU `i` in the combo box (two-SMU case). -/
def userSetGate (st : SweepSel) (i : Fin 2) : SweepSel :=
  setCurrentIndexCascade 4 true st i

/-- The user picks drain SMU `i` in the combo box (two-SMU case). -/
def userSetDrain (st : SweepSel) (i : Fin 2) : SweepSel :=
  setCurrentIndexCascade 4 false st i

/-- A user interaction with the two selectors: `(true, i)` picks gate index
`i`, `(false, i)` picks drain index `i`. -/
def applySelEvent (st : SweepSel) (e : Bool × Fin 2) : SweepSel :=
  if e.1 then userSetGate st e.2 else userSetDrain st e.2

/-- Initial selector state from `SweepSettingsWidget.__init__`: gate combo at
index 0, drain combo at index 1. -/
def initSweepSel : SweepSel := ⟨0, 1⟩

/-! ### `KeithleyGuiApp.on_sweep_clicked` (main.py lines 553-626) -/

/-- Observable outcome of a click on the Run button. -/
inductive SweepClickOutcome where
  | busyDialog
  | ignoredTab
  | paramErrorDialog
  | measurementStarted
deriving DecidableEq

/-- Control flow of `on_sweep_clicked`: the `keithley.busy` guard, the
`tabWidgetSweeps.currentIndex()` dispatch (indices 0, 1, 2 build sweep
parameters, any other index returns silently), the integration-time check
`0.001 / freq < tInt < 25.0 / freq` against the instrument line frequency,
and finally the start of `MeasureThread`. -/
def on_sweep_clicked (busy : Bool) (tabIndex : Nat) (tInt freq : ℚ) :
    SweepClickOutcome :=
  if busy then SweepClickOutcome.busyDialog
  else if 3 ≤ tabIndex then SweepClickOutcome.ignoredTab
  else if ¬(0.001 / freq < tInt ∧ tInt < 25.0 / freq) then
    SweepClickOutcome.paramErrorDialog
  else SweepClickOutcome.measurementStarted

/-! ### `MeasureThread` (main.py lines 1014-1097) -/

/-- The driver's result-table type, as far as `MeasureThread.run` builds or
forwards it (`FETResultTable(column_titles=..., units=..., data=...)`). -/
structure FETResultTable where
  column_titles : List String
  units : List String
  data : List (List ℚ)
deriving DecidableEq

/-- The sweep shape selected by the GUI (`params["sweep_type"]`); the GUI
only ever creates a `MeasureThread` with one of these three strings. -/
inductive SweepType where
  | transfer
  | output
  | iv
deriving DecidableEq

/-- Outcomes of the external driver calls performed inside
`MeasureThread.run`'s `try` block: each call either returns (`Except.ok`) or
raises an exception with the given message (`Except.error`). -/
structure MeasureEnv where
  transferResult : Except String FETResultTable
  outputResult : Except String FETResultTable
  ivResult : Except String (List ℚ × List ℚ)
  beepResult : Except String Unit
  resetResult : Except String Unit

/-- The table built for an IV sweep from the driver's `(v, i)` lists:
`FETResultTable(column_titles=["Voltage", "Current"], units=["V", "A"],
data=np.array([v, i]).transpose(), ...)`. -/
def ivTable (v i : List ℚ) : FETResultTable :=
  ⟨["Voltage", "Current"], ["V", "A"], List.zipWith (fun a b => [a, b]) v i⟩

/-- Qt signals of `MeasureThread`. -/
inductive MeasureSignal where
  | started_sig
  | finished_sig (table : Option FETResultTable)
  | error_sig (e : String)
deriving DecidableEq

/-- The driver call made for the selected sweep shape, with the value
`MeasureThread.run` stores in `sweep_data`. -/
def sweepCall (st : SweepType) (env : MeasureEnv) :
    Except String (Option FETResultTable) :=
  match st with
  | SweepType.transfer => env.transferResult.map (fun t => some t)
  | SweepType.output => env.outputResult.map (fun t => some t)
  | SweepType.iv => env.ivResult.map (fun p => some (ivTable p.1 p.2))

/-- Body of `MeasureThread.run`'s `try` block: the selected sweep call, then
`keithley.beeper.beep(0.3, 2400)`, then `keithley.reset()`; the first raised
exception short-circuits to the `except` handler. -/
def measureBody (st : SweepType) (env : MeasureEnv) :
    Except String (Option FETResultTable) :=
  match sweepCall st env with
  | Except.error e => Except.error e
  | Except.ok sweep_data =>
    match env.beepResult with
    | Except.error e => Except.error e
    | Except.ok _ =>
      match env.resetResult with
      | Except.error e => Except.error e
      | Except.ok _ => Except.ok sweep_data

/-- `MeasureThread.run`: emits `started_sig`, then either `finished_sig` with
the sweep data (when the `try` body completes) or `error_sig` with the raised
exception (the `except Exception` handler). -/
def MeasureThread_run (st : SweepType) (env : MeasureEnv) : List MeasureSignal :=
  MeasureSignal.started_sig ::
    (match measureBody st env with
     | Except.ok t => [MeasureSignal.finished_sig t]
     | Except.error e => [MeasureSignal.error_sig e])

/-- The two result signals of `MeasureThread` (`finished_sig`, `error_sig`),
as opposed to `started_sig`. -/
def isResultSignal : MeasureSignal → Bool
  | MeasureSignal.started_sig => false
  | MeasureSignal.finished_sig _ => true
  | MeasureSignal.error_sig _ => true

/-- All steps of the measurement complete without raising. -/
def stepsOk (st : SweepType) (env : MeasureEnv) : Prop :=
  (match st with
   | SweepType.transfer => ∃ t, env.transferResult = Except.ok t
   | SweepType.output => ∃ t, env.outputResult = Except.ok t
   | SweepType.iv => ∃ p, env.ivResult = Except.ok p) ∧
  env.beepResult = Except.ok () ∧ env.resetResult = Except.ok ()

/-! ### `RealtimeMeasureThread` (main.py lines 1100-1298)

The thread is embedded as a function from its environment — the successive
polled values of `self.running`, the outcomes of the instrument reads, and
the wall-clock / `math.sin` / `random.uniform` oracles — to the list of Qt
signals it emits.  Payload dictionaries are modelled by their contents at
emission time. -/

/-- A data payload emitted on `data_sig`: the dict with keys `"time"`,
`"voltage"`, `"current"` and `"last_value"`. -/
structure Payload where
  time : List ℚ
  voltage : List ℚ
  current : List ℚ
  last_value : ℚ × ℚ × ℚ
deriving DecidableEq

/-- Qt signals of `RealtimeMeasureThread`. -/
inductive RTSignal where
  | data_sig (p : Payload)
  | error_sig (e : String)
  | finished_sig
deriving DecidableEq

/-- Mutable sampling state of the thread: the three data lists and the
consecutive-error counter of the real-device loop. -/
structure RTState where
  time_data : List ℚ
  voltage_data : List ℚ
  current_data : List ℚ
  consecutive_errors : ℕ
deriving DecidableEq

/-- State at the top of `run`/`_run_simulation`: the data lists are reset to
`[]` and `consecutive_errors = 0` (lines 1217-1221 resp. 1146-1148). -/
def rtInitState : RTState := ⟨[], [], [], 0⟩

/-- `self.time_data.append(t); self.voltage_data.append(v);
self.current_data.append(i)`. -/
def appendSample (st : RTState) (t v i : ℚ) : RTState :=
  { st with
    time_data := st.time_data ++ [t]
    voltage_data := st.voltage_data ++ [v]
    current_data := st.current_data ++ [i] }

/-- The payload dict built right after appending, with
`"last_value": (t, v, i)`. -/
def mkPayload (st : RTState) (t v i : ℚ) : Payload :=
  ⟨st.time_data, st.voltage_data, st.current_data, (t, v, i)⟩

/-- Outcome of one instrument-read attempt in the real-device loop: either
both `smu.measure.v()` and `smu.measure.i()` return (with elapsed time
`t = time.time() - start_time`), or a call raises `pyvisa.VisaIOError`, or
some other exception is raised. -/
inductive ReadOutcome where
  | okRead (t v i : ℚ)
  | visaError (msg : String)
  | otherError (msg : String)
deriving DecidableEq

/-- Whether the read attempt failed. -/
def isErrOutcome : ReadOutcome → Bool
  | ReadOutcome.okRead _ _ _ => false
  | ReadOutcome.visaError _ => true
  | ReadOutcome.otherError _ => true

/-- `max_consecutive_errors = 3` (line 1222). -/
def max_consecutive_errors : ℕ := 3

/-- One iteration body of the real-device `while self.running:` loop (lines
1225-1283), given the read outcome: the new state, the emitted signals, and
whether the loop continues.  On success the sample is appended, the payload
emitted and the counter reset; on failure the counter is incremented and,
once it reaches `max_consecutive_errors`, `error_sig` is emitted and the
loop breaks (the VISA branch wraps the exception text, the generic branch
forwards the exception).  The VISA-timeout recovery attempt only touches the
device and logs, so it does not appear in the state. -/
def rtRealStep (st : RTState) (out : ReadOutcome) : RTState × List RTSignal × Bool :=
  match out with
  | ReadOutcome.okRead t v i =>
    let st1 := appendSample st t v i
    ({ st1 with consecutive_errors := 0 },
     [RTSignal.data_sig (mkPayload st1 t v i)], true)
  | ReadOutcome.visaError m =>
    let st1 := { st with consecutive_errors := st.consecutive_errors + 1 }
    if max_consecutive_errors ≤ st1.consecutive_errors then
      (st1, [RTSignal.error_sig ("多次测量失败，停止测量: " ++ m)], false)
    else (st1, [], true)
  | ReadOutcome.otherError m =>
    let st1 := { st with consecutive_errors := st.consecutive_errors + 1 }
    if max_consecutive_errors ≤ st1.consecutive_errors then
      (st1, [RTSignal.error_sig m], false)
    else (st1, [], true)

/-- One entry of the real-device loop environment: the polled value of
`self.running` at the top of the iteration and the read outcome for the
iteration body. -/
abbrev RTEntry := Bool × ReadOutcome

/-- The real-device sampling loop of `RealtimeMeasureThread.run`.  The
schedule lists the successive poll/read-outcome pairs; an exhausted schedule
models the flag having turned false. -/
def rtLoopReal : List RTEntry → RTState → List RTSignal
  | [], _ => []
  | (flag, out) :: rest, st =>
    if flag then
      let step := rtRealStep st out
      if step.2.2 then step.2.1 ++ rtLoopReal rest step.1 else step.2.1
    else []

/-- Environment of one `_run_simulation` iteration: the polled value of
`self.running`, the value of `self.current_voltage` obtained by the locked
read, and oracles for `math.sin(2 * math.pi * frequency * t)` and for the
uniform sample `random.uniform(-noise_level, noise_level)`. -/
structure SimTick where
  running : Bool
  voltage : ℚ
  sinVal : ℚ
  noiseVal : ℚ
deriving DecidableEq

/-- `baseline = 1e-6` (line 1154). -/
def sim_baseline : ℚ := 1 / 1000000

/-- `amplitude = 1e-6` (line 1155). -/
def sim_amplitude : ℚ := 1 / 1000000

/-- The simulated current of one iteration (lines 1164-1171):
`current_scale = abs(v) * 2e-6`, `sine_component = amplitude * sin(...)`,
`noise = random.uniform(-noise_level, noise_level) * amplitude`, and
`i = baseline + current_scale + sine_component + noise`. -/
def simCurrent (voltage sinVal noiseVal : ℚ) : ℚ :=
  sim_baseline + |voltage| * (2 / 1000000) + sim_amplitude * sinVal +
    noiseVal * sim_amplitude

/-- The `while self.running:` loop of `_run_simulation` (lines 1158-1188):
`t` starts at 0 and advances by `interval` per iteration; every live
iteration appends a sample and emits a payload. -/
def runSimLoop (interval : ℚ) : List SimTick → ℚ → RTState → List RTSignal
  | [], _, _ => []
  | tick :: rest, t, st =>
    if tick.running then
      let i := simCurrent tick.voltage tick.sinVal tick.noiseVal
      let st1 := appendSample st t tick.voltage i
      RTSignal.data_sig (mkPayload st1 t tick.voltage i) ::
        runSimLoop interval rest (t + interval) st1
    else []

/-- `RealtimeMeasureThread._run_simulation` (lines 1141-1188): resets the
data lists and runs the generator loop from `t = 0`. -/
def _run_simulation (interval : ℚ) (ticks : List SimTick) : List RTSignal :=
  runSimLoop interval ticks 0 rtInitState

/-- `RealtimeMeasureThread.run` (lines 1190-1298): the `simulation_mode`
dispatch, the connection guard (`not hasattr(self.keithley, 'connected') or
not self.keithley.connected`, folded into `connected`), the `self.smu is
None` guard (`smuValid`), the real-device sampling loop, and the
`finally: self.finished_sig.emit()`. -/
def RealtimeMeasureThread_run (simulation_mode connected smuValid : Bool)
    (interval : ℚ) (ticks : List SimTick) (schedule : List RTEntry) :
    List RTSignal :=
  (if simulation_mode then _run_simulation interval ticks
   else if !connected then [RTSignal.error_sig "设备未连接"]
   else if !smuValid then [RTSignal.error_sig "无法获取SMU对象"]
   else rtLoopReal schedule rtInitState) ++ [RTSignal.finished_sig]

/-- `on_start_realtime_clicked` (lines 826-886) up to thread creation:
returns `some simulation_mode` of the `RealtimeMeasureThread` it creates,
or `none` when the handler returns without creating one (placeholder SMU
selected, `apply_voltage` raising in real-device mode, or the user pressing
Cancel on the simulation prompt).  `simulation_mode = not
self.keithley.connected` (line 840). -/
def on_start_realtime_clicked (smu_name : String)
    (connected applyVoltageOk cancelClicked : Bool) : Option Bool :=
  if smu_name = "--" then none
  else
    let simulation_mode := !connected
    if !simulation_mode then
      if applyVoltageOk then some simulation_mode else none
    else
      if cancelClicked then none else some simulation_mode

/-- Whether a signal is `error_sig`. -/
def isErrorSig : RTSignal → Bool
  | RTSignal.error_sig _ => true
  | _ => false

/-- Whether the signal list contains an `error_sig`. -/
def emitsError (sigs : List RTSignal) : Bool := sigs.any isErrorSig

/-- The payloads of the `data_sig` emissions, in order. -/
def dataPayloads (sigs : List RTSignal) : List Payload :=
  sigs.filterMap (fun s =>
    match s with
    | RTSignal.data_sig p => some p
    | _ => none)

/-- Number of `finished_sig` emissions. -/
def countFinished (sigs : List RTSignal) : ℕ :=
  (sigs.filter (fun s =>
    match s with
    | RTSignal.finished_sig => true
    | _ => false)).length

/-- The poll flag of schedule entry `k` (out-of-range entries read as a
false flag). -/
def entryLive (l : List RTEntry) (k : ℕ) : Bool :=
  (l.getD k (false, ReadOutcome.okRead 0 0 0)).1

/-- Whether schedule entry `k` is a failed read. -/
def entryErr (l : List RTEntry) (k : ℕ) : Bool :=
  isErrOutcome (l.getD k (false, ReadOutcome.okRead 0 0 0)).2

/-- The first `j` schedule entries are live failed reads. -/
def ErrRunFromStart (j : ℕ) (l : List RTEntry) : Prop :=
  j ≤ l.length ∧ ∀ k, k < j → entryLive l k = true ∧ entryErr l k = true

/-- Somewhere in the schedule three consecutive iterations fail while every
iteration up to there is live (the loop is still being polled as running). -/
def ThreeConsecutiveErrors (l : List RTEntry) : Prop :=
  ∃ n, n + 2 < l.length ∧ (∀ k, k ≤ n + 2 → entryLive l k = true) ∧
    entryErr l n = true ∧ entryErr l (n + 1) = true ∧ entryErr l (n + 2) = true

/-! ### Cross-thread state of `RealtimeMeasureThread` (main.py lines
1106-1188)

The thread object's mutable attributes and the accesses made to them, on one
side by the methods the GUI thread calls on a running thread (`stop`,
`update_simulation_voltage`) and on the other side by the worker's
`_run_simulation` loop.  `underMutex` records whether the access happens
between `self.lock.lock()` and `self.lock.unlock()`. -/

/-- Mutable attributes of the thread object touched after `start()`. -/
inductive ThreadSharedVar where
  | current_voltage
  | running
  | time_data
  | voltage_data
  | current_data
deriving DecidableEq

/-- One attribute access: which variable, write or read, and whether the
thread's mutex is held. -/
structure VarAccess where
  var : ThreadSharedVar
  isWrite : Bool
  underMutex : Bool
deriving DecidableEq

/-- `stop` (lines 1132-1133): `self.running = False`, no lock. -/
def stop_accesses : List VarAccess :=
  [⟨ThreadSharedVar.running, true, false⟩]

/-- `update_simulation_voltage` (lines 1135-1139): `self.lock.lock();
self.current_voltage = new_voltage; self.lock.unlock()`. -/
def update_simulation_voltage_accesses : List VarAccess :=
  [⟨ThreadSharedVar.current_voltage, true, true⟩]

/-- All accesses from the UI-thread side while the worker runs. -/
def uiAccesses : List VarAccess :=
  stop_accesses ++ update_simulation_voltage_accesses

/-- Per-iteration accesses of the worker's `_run_simulation` loop: the
`while self.running` poll (no lock), the locked read of
`self.current_voltage` (lines 1160-1162), and the unlocked appends to the
three data lists (lines 1173-1175). -/
def run_simulation_accesses : List VarAccess :=
  [⟨ThreadSharedVar.running, false, false⟩,
   ⟨ThreadSharedVar.current_voltage, false, true⟩,
   ⟨ThreadSharedVar.time_data, true, false⟩,
   ⟨ThreadSharedVar.voltage_data, true, false⟩,
   ⟨ThreadSharedVar.current_data, true, false⟩]

/-- Whether the access list touches variable `v`. -/
def accessesVar (l : List VarAccess) (v : ThreadSharedVar) : Bool :=
  l.any (fun a => a.var == v)

/-- Chronological history of the mutex-serialised accesses to
`current_voltage`: writes from `update_simulation_voltage` and reads from
the simulation loop.  The mutex makes each access atomic, so a history is a
sequence. -/
inductive CVEvent where
  | write (v : ℚ)
  | readEv
deriving DecidableEq

/-- Value held by `current_voltage` after a history; the initial value is
`self.current_voltage = 1.0` (line 1124). -/
def cvAfter (init : ℚ) : List CVEvent → ℚ
  | [] => init
  | CVEvent.write v :: rest => cvAfter v rest
  | CVEvent.readEv :: rest => cvAfter init rest

/-- Whether the event is a write. -/
def isWriteEv : CVEvent → Bool
  | CVEvent.write _ => true
  | CVEvent.readEv => false

/-- The value of the most recent write in the history (or the initial value
when there is none): the specification of "most recently written setpoint". -/
def lastWriteValue (init : ℚ) (h : List CVEvent) : ℚ :=
  match (h.filter isWriteEv).getLast? with
  | some (CVEvent.write v) => v
  | _ => init

/-! ## Lemmas and theorems -/

section RealtimeLemmas

lemma entryLive_cons_zero (x : RTEntry) (l : List RTEntry) :
    entryLive (x :: l) 0 = x.1 := rfl

lemma entryLive_cons_succ (x : RTEntry) (l : List RTEntry) (k : ℕ) :
    entryLive (x :: l) (k + 1) = entryLive l k := rfl

lemma entryErr_cons_zero (x : RTEntry) (l : List RTEntry) :
    entryErr (x :: l) 0 = isErrOutcome x.2 := rfl

lemma entryErr_cons_succ (x : RTEntry) (l : List RTEntry) (k : ℕ) :
    entryErr (x :: l) (k + 1) = entryErr l k := rfl

lemma errRunFromStart_zero (l : List RTEntry) : ErrRunFromStart 0 l :=
  ⟨Nat.zero_le _, fun k hk => absurd hk (Nat.not_lt_zero k)⟩

lemma errRunFromStart_mono {j j' : ℕ} (h : j' ≤ j) {l : List RTEntry}
    (hj : ErrRunFromStart j l) : ErrRunFromStart j' l :=
  ⟨le_trans h hj.1, fun k hkj => hj.2 k (lt_of_lt_of_le hkj h)⟩

lemma errRunFromStart_nil {j : ℕ} : ErrRunFromStart j [] ↔ j = 0 := by
  constructor
  · rintro ⟨hl, _⟩
    simpa using hl
  · rintro rfl
    exact errRunFromStart_zero []

lemma errRunFromStart_cons_succ (x : RTEntry) (l : List RTEntry) (j : ℕ) :
    ErrRunFromStart (j + 1) (x :: l) ↔
      x.1 = true ∧ isErrOutcome x.2 = true ∧ ErrRunFromStart j l := by
  constructor
  · rintro ⟨hl, hk⟩
    have h0 := hk 0 (Nat.succ_pos j)
    rw [entryLive_cons_zero, entryErr_cons_zero] at h0
    refine ⟨h0.1, h0.2, ?_, ?_⟩
    · simpa [List.length_cons, Nat.succ_le_succ_iff] using hl
    · intro k hkj
      have := hk (k + 1) (Nat.succ_lt_succ hkj)
      rwa [entryLive_cons_succ, entryErr_cons_succ] at this
  · rintro ⟨hx, he, hl, hk⟩
    refine ⟨by simpa [List.length_cons, Nat.succ_le_succ_iff] using hl, ?_⟩
    intro k hkj
    cases k with
    | zero =>
      rw [entryLive_cons_zero, entryErr_cons_zero]
      exact ⟨hx, he⟩
    | succ k =>
      rw [entryLive_cons_succ, entryErr_cons_succ]
      exact hk k (Nat.lt_of_succ_lt_succ hkj)

lemma threeConsecutiveErrors_nil : ¬ ThreeConsecutiveErrors [] := by
  rintro ⟨n, hlen, -⟩
  simp at hlen

lemma errRunFromStart_three_iff (l : List RTEntry) :
    ErrRunFromStart 3 l ↔
      2 < l.length ∧ (∀ k, k ≤ 2 → entryLive l k = true) ∧
        entryErr l 0 = true ∧ entryErr l 1 = true ∧ entryErr l 2 = true := by
  constructor
  · rintro ⟨hl, hk⟩
    exact ⟨by omega, fun k hk2 => (hk k (by omega)).1, (hk 0 (by omega)).2,
      (hk 1 (by omega)).2, (hk 2 (by omega)).2⟩
  · rintro ⟨hl, hlive, h0, h1, h2⟩
    refine ⟨by omega, fun k hk => ⟨hlive k (by omega), ?_⟩⟩
    interval_cases k <;> assumption

lemma threeConsecutiveErrors_cons (x : RTEntry) (l : List RTEntry) :
    ThreeConsecutiveErrors (x :: l) ↔
      ErrRunFromStart 3 (x :: l) ∨ (x.1 = true ∧ ThreeConsecutiveErrors l) := by
  constructor
  · rintro ⟨n, hlen, hlive, h0, h1, h2⟩
    cases n with
    | zero =>
      left
      rw [errRunFromStart_three_iff]
      exact ⟨hlen, fun k hk => hlive k (by omega), h0, h1, h2⟩
    | succ m =>
      right
      have hx : x.1 = true := by
        have := hlive 0 (by omega)
        rwa [entryLive_cons_zero] at this
      refine ⟨hx, m, ?_, ?_, ?_, ?_, ?_⟩
      · simp only [List.length_cons] at hlen
        omega
      · intro k hk
        have := hlive (k + 1) (by omega)
        rwa [entryLive_cons_succ] at this
      · rwa [entryErr_cons_succ] at h0
      · rwa [entryErr_cons_succ] at h1
      · rwa [entryErr_cons_succ] at h2
  · rintro (h | ⟨hx, n, hlen, hlive, h0, h1, h2⟩)
    · rw [errRunFromStart_three_iff] at h
      exact ⟨0, h.1, fun k hk => h.2.1 k hk, h.2.2.1, h.2.2.2.1, h.2.2.2.2⟩
    · refine ⟨n + 1, ?_, ?_, ?_, ?_, ?_⟩
      · simp only [List.length_cons]
        omega
      · intro k hk
        cases k with
        | zero => rwa [entryLive_cons_zero]
        | succ k =>
          rw [entryLive_cons_succ]
          exact hlive k (by omega)
      · rwa [entryErr_cons_succ]
      · rwa [entryErr_cons_succ]
      · rwa [entryErr_cons_succ]

lemma rtLoopReal_cons_false (o : ReadOutcome) (rest : List RTEntry) (st : RTState) :
    rtLoopReal ((false, o) :: rest) st = [] := rfl

lemma rtLoopReal_cons_ok (t v i : ℚ) (rest : List RTEntry) (st : RTState) :
    rtLoopReal ((true, ReadOutcome.okRead t v i) :: rest) st =
      RTSignal.data_sig (mkPayload (appendSample st t v i) t v i) ::
        rtLoopReal rest { appendSample st t v i with consecutive_errors := 0 } := rfl

lemma rtLoopReal_cons_err_continue (o : ReadOutcome) (rest : List RTEntry)
    (st : RTState) (ho : isErrOutcome o = true)
    (hc : st.consecutive_errors + 1 < 3) :
    rtLoopReal ((true, o) :: rest) st =
      rtLoopReal rest { st with consecutive_errors := st.consecutive_errors + 1 } := by
  have hn : ¬ max_consecutive_errors ≤ st.consecutive_errors + 1 := by
    simp [max_consecutive_errors]
    omega
  cases o with
  | okRead t v i => simp [isErrOutcome] at ho
  | visaError m => simp [rtLoopReal, rtRealStep, hn]
  | otherError m => simp [rtLoopReal, rtRealStep, hn]

lemma rtLoopReal_cons_err_abort (o : ReadOutcome) (rest : List RTEntry)
    (st : RTState) (ho : isErrOutcome o = true)
    (hc : 3 ≤ st.consecutive_errors + 1) :
    emitsError (rtLoopReal ((true, o) :: rest) st) = true := by
  have hy : max_consecutive_errors ≤ st.consecutive_errors + 1 := by
    simpa [max_consecutive_errors] using hc
  cases o with
  | okRead t v i => simp [isErrOutcome] at ho
  | visaError m => simp [rtLoopReal, rtRealStep, hy, emitsError, isErrorSig]
  | otherError m => simp [rtLoopReal, rtRealStep, hy, emitsError, isErrorSig]

lemma emitsError_cons_data (p : Payload) (sigs : List RTSignal) :
    emitsError (RTSignal.data_sig p :: sigs) = emitsError sigs := by
  simp [emitsError, isErrorSig]

lemma rtLoopReal_emitsError_general (l : List RTEntry) :
    ∀ st : RTState, st.consecutive_errors ≤ 2 →
      (emitsError (rtLoopReal l st) = true ↔
        (ThreeConsecutiveErrors l ∨
          (1 ≤ st.consecutive_errors ∧
            ErrRunFromStart (3 - st.consecutive_errors) l))) := by
  induction l with
  | nil =>
    intro st hst
    rw [show rtLoopReal [] st = [] from rfl]
    simp only [emitsError, List.any_nil, Bool.false_eq_true, false_iff]
    rintro (h | ⟨h1, h2⟩)
    · exact threeConsecutiveErrors_nil h
    · rw [errRunFromStart_nil] at h2
      omega
  | cons x rest ih =>
    intro st hst
    obtain ⟨flag, o⟩ := x
    cases flag with
    | false =>
      rw [rtLoopReal_cons_false]
      simp only [emitsError, List.any_nil, Bool.false_eq_true, false_iff]
      have hdead : ∀ j : ℕ, ¬ ErrRunFromStart (j + 1) ((false, o) :: rest) := by
        intro j hj
        rw [errRunFromStart_cons_succ] at hj
        simpa using hj.1
      rintro (h | ⟨h1, h2⟩)
      · rw [threeConsecutiveErrors_cons] at h
        rcases h with h | ⟨hx, -⟩
        · exact hdead 2 h
        · simp at hx
      · obtain ⟨j, hj⟩ : ∃ j, 3 - st.consecutive_errors = j + 1 :=
          ⟨2 - st.consecutive_errors, by omega⟩
        rw [hj] at h2
        exact hdead j h2
    | true =>
      cases ho : isErrOutcome o with
      | false =>
        obtain ⟨t, v, i, rfl⟩ : ∃ t v i, o = ReadOutcome.okRead t v i := by
          cases o with
          | okRead t v i => exact ⟨t, v, i, rfl⟩
          | visaError m => simp [isErrOutcome] at ho
          | otherError m => simp [isErrOutcome] at ho
        rw [rtLoopReal_cons_ok, emitsError_cons_data]
        have hih := ih { appendSample st t v i with consecutive_errors := 0 }
          (Nat.zero_le 2)
        rw [hih]
        have hnerr : ∀ j : ℕ,
            ¬ ErrRunFromStart (j + 1) ((true, ReadOutcome.okRead t v i) :: rest) := by
          intro j hj
          rw [errRunFromStart_cons_succ] at hj
          simp [isErrOutcome] at hj
        constructor
        · rintro (h | ⟨h1, -⟩)
          · left
            rw [threeConsecutiveErrors_cons]
            exact Or.inr ⟨rfl, h⟩
          · simp at h1
        · rintro (h | ⟨h1, h2⟩)
          · rw [threeConsecutiveErrors_cons] at h
            rcases h with h | ⟨-, h⟩
            · exact absurd h (hnerr 2)
            · exact Or.inl h
          · obtain ⟨j, hj⟩ : ∃ j, 3 - st.consecutive_errors = j + 1 :=
              ⟨2 - st.consecutive_errors, by omega⟩
            rw [hj] at h2
            exact absurd h2 (hnerr j)
      | true =>
        by_cases hc : st.consecutive_errors + 1 < 3
        · rw [rtLoopReal_cons_err_continue o rest st ho hc]
          have hih := ih { st with consecutive_errors := st.consecutive_errors + 1 }
            (show st.consecutive_errors + 1 ≤ 2 by omega)
          have hproj :
              ({ st with consecutive_errors := st.consecutive_errors + 1 } :
                RTState).consecutive_errors = st.consecutive_errors + 1 := rfl
          rw [hproj] at hih
          have h32 : 3 - (st.consecutive_errors + 1) = 2 - st.consecutive_errors := by
            omega
          rw [h32] at hih
          rw [hih]
          have h3c : ErrRunFromStart 3 ((true, o) :: rest) ↔ ErrRunFromStart 2 rest := by
            rw [show (3 : ℕ) = 2 + 1 from rfl, errRunFromStart_cons_succ]
            simp [ho]
          have hcc : ErrRunFromStart (3 - st.consecutive_errors) ((true, o) :: rest) ↔
              ErrRunFromStart (2 - st.consecutive_errors) rest := by
            obtain ⟨j, hj⟩ : ∃ j, 3 - st.consecutive_errors = j + 1 :=
              ⟨2 - st.consecutive_errors, by omega⟩
            have hj2 : j = 2 - st.consecutive_errors := by omega
            rw [hj, errRunFromStart_cons_succ, hj2]
            simp [ho]
          rw [threeConsecutiveErrors_cons, h3c, hcc]
          constructor
          · rintro (h | ⟨-, h⟩)
            · exact Or.inl (Or.inr ⟨rfl, h⟩)
            · by_cases h1 : 1 ≤ st.consecutive_errors
              · exact Or.inr ⟨h1, h⟩
              · have hc0 : st.consecutive_errors = 0 := by omega
                rw [hc0] at h
                exact Or.inl (Or.inl (by simpa using h))
          · rintro ((h | ⟨-, h⟩) | ⟨h1, h⟩)
            · exact Or.inr ⟨Nat.le_add_left 1 _, errRunFromStart_mono (by omega) h⟩
            · exact Or.inl h
            · exact Or.inr ⟨Nat.le_add_left 1 _, h⟩
        · have hc3 : 3 ≤ st.consecutive_errors + 1 := by omega
          have habort := rtLoopReal_cons_err_abort o rest st ho hc3
          rw [habort]
          have hc2 : st.consecutive_errors = 2 := by omega
          rw [hc2]
          refine iff_of_true rfl (Or.inr ⟨by norm_num, ?_⟩)
          rw [show (3 : ℕ) - 2 = 0 + 1 from rfl, errRunFromStart_cons_succ]
          exact ⟨rfl, ho, errRunFromStart_zero rest⟩

end RealtimeLemmas

lemma padSmuList_of_ge (l : List String) (h : 2 ≤ l.length) : padSmuList l = l := by
  rw [padSmuList]
  simp [Nat.not_lt.mpr h]

lemma two_le_padSmuList_length (l : List String) : 2 ≤ (padSmuList l).length := by
  rw [padSmuList]
  split
  · rw [padSmuList]
    split
    · rw [padSmuList]
      split
      · simp only [List.length_append, List.length_cons, List.length_nil] at *
        omega
      · simp only [List.length_append, List.length_cons, List.length_nil] at *
        omega
    · simp only [List.length_append, List.length_cons, List.length_nil] at *
      omega
  · omega

lemma padSmuList_eq_append (l : List String) :
    padSmuList l = l ++ List.replicate (2 - l.length) "--" := by
  rw [padSmuList]
  split
  · rw [padSmuList]
    split
    · rw [padSmuList]
      split
      · simp only [List.length_append, List.length_cons, List.length_nil] at *
        omega
      · have hlen : l.length = 0 := by
          simp only [List.length_append, List.length_cons, List.length_nil] at *
          omega
        have hl : l = [] := List.eq_nil_of_length_eq_zero hlen
        subst hl
        rfl
    · have h1 : 2 - l.length = 1 := by
        simp only [List.length_append, List.length_cons, List.length_nil] at *
        omega
      rw [h1]
      rfl
  · have h0 : 2 - l.length = 0 := by omega
    rw [h0]
    simp

lemma listContains_iff_infix (needle hay : List Char) :
    listContains needle hay = true ↔ needle <:+: hay := by
  induction hay with
  | nil =>
    simp [listContains, List.isEmpty_iff]
  | cons c rest ih =>
    simp only [listContains, Bool.or_eq_true, ih, List.infix_cons_iff,
      List.isPrefixOf_iff_prefix]

/-- The handler cascade stabilises: fuel `4` is enough (more fuel never
changes the result), so `userSetGate`/`userSetDrain` are faithful to the
signal-driven recursion. -/
lemma setCurrentIndexCascade_stable :
    ∀ (g d i : Fin 2) (b : Bool),
      setCurrentIndexCascade 4 b ⟨g, d⟩ i = setCurrentIndexCascade 5 b ⟨g, d⟩ i := by
  decide

/-- C8: `_get_smus` always returns a list of length at least two: the
`smu`-prefixed attribute names when they can be read from a connected device,
the default `["smu1", "smu2"]` when the device is disconnected or any
exception occurs, and in every case the base list is padded with the
placeholder `"--"` until it has at least two entries. -/
theorem get_smus_spec :
    (∀ hc c d, 2 ≤ (_get_smus hc c d).length) ∧
    (∀ d, _get_smus true false d = ["smu1", "smu2"]) ∧
    (∀ hc c, _get_smus hc c none = ["smu1", "smu2"]) ∧
    (∀ attrs, _get_smus true true (some attrs) =
      padSmuList (attrs.filter (fun a => a.startsWith "smu"))) ∧
    (∀ l, padSmuList l = l ++ List.replicate (2 - l.length) "--") := by
  have hdef : padSmuList ["smu1", "smu2"] = ["smu1", "smu2"] :=
    padSmuList_of_ge _ (by decide)
  refine ⟨fun hc c d => two_le_padSmuList_length _, ?_, ?_, fun attrs => rfl,
    padSmuList_eq_append⟩
  · intro d
    simp [_get_smus, hdef]
  · intro hc c
    cases hc <;> cases c <;> simp [_get_smus, hdef]

/-- C9: `_string_to_vd` returns the parsed float when the string parses as a
float; otherwise it returns the `"trailing"` marker when `"trailing"` occurs
as a substring of the input; otherwise it raises
`ValueError("Invalid drain voltage.")`. -/
theorem string_to_vd_spec :
    (∀ x s, _string_to_vd (some x) s = Except.ok (VdEntry.value x)) ∧
    (∀ s : String, "trailing".data <:+: s.data →
      _string_to_vd none s = Except.ok VdEntry.trailingKw) ∧
    (∀ s : String, ¬ "trailing".data <:+: s.data →
      _string_to_vd none s = Except.error "Invalid drain voltage.") := by
  refine ⟨fun x s => rfl, ?_, ?_⟩
  · intro s h
    simp [_string_to_vd, listContains_iff_infix, h]
  · intro s h
    simp [_string_to_vd, listContains_iff_infix, h]

/-- Witness for `string_to_vd_spec` at concrete inputs. -/
theorem string_to_vd_spec_witness :
    _string_to_vd (some (5 : ℚ)) "5" = Except.ok (VdEntry.value 5) ∧
    _string_to_vd none "atrailingb" = Except.ok VdEntry.trailingKw ∧
    _string_to_vd none "abc" = Except.error "Invalid drain voltage." :=
  ⟨string_to_vd_spec.1 5 "5",
   string_to_vd_spec.2.1 "atrailingb" (by decide),
   string_to_vd_spec.2.2 "abc" (by decide)⟩

/-- C4: with fewer than three selectable SMUs, a user change of the gate
selector to index 0 forces the drain selector to index 1 (and to 0 when the
gate becomes 1), symmetrically for drain changes, and gate and drain never
end up naming the same SMU: any event sends any state to a state with
distinct indices, and from the initial state every event sequence preserves
distinctness. -/
theorem smu_selector_exclusive :
    (∀ (g d i : Fin 2), g ≠ i →
      (userSetGate ⟨g, d⟩ i).smu_gate = i ∧
      (userSetGate ⟨g, d⟩ i).smu_drain = otherIdx i) ∧
    (∀ (g d i : Fin 2), d ≠ i →
      (userSetDrain ⟨g, d⟩ i).smu_drain = i ∧
      (userSetDrain ⟨g, d⟩ i).smu_gate = otherIdx i) ∧
    (∀ (g d i : Fin 2) (b : Bool), g ≠ d →
      (applySelEvent ⟨g, d⟩ (b, i)).smu_gate ≠ (applySelEvent ⟨g, d⟩ (b, i)).smu_drain) ∧
    (∀ events : List (Bool × Fin 2),
      (events.foldl applySelEvent initSweepSel).smu_gate ≠
        (events.foldl applySelEvent initSweepSel).smu_drain) := by
  refine ⟨by decide, by decide, by decide, ?_⟩
  have step : ∀ (g d : Fin 2) (e : Bool × Fin 2), g ≠ d →
      (applySelEvent ⟨g, d⟩ e).smu_gate ≠ (applySelEvent ⟨g, d⟩ e).smu_drain := by
    decide
  have main : ∀ (events : List (Bool × Fin 2)) (st : SweepSel),
      st.smu_gate ≠ st.smu_drain →
      (events.foldl applySelEvent st).smu_gate ≠
        (events.foldl applySelEvent st).smu_drain := by
    intro events
    induction events with
    | nil => intro st h; simpa using h
    | cons e rest ih =>
      rintro ⟨g, d⟩ h
      simpa using ih (applySelEvent ⟨g, d⟩ e) (step g d e h)
  exact fun events => main events initSweepSel (by decide)

/-- Witness for `smu_selector_exclusive` at concrete inputs. -/
theorem smu_selector_exclusive_witness :
    ((userSetGate ⟨1, 0⟩ 0).smu_gate = 0 ∧ (userSetGate ⟨1, 0⟩ 0).smu_drain = otherIdx 0) ∧
    ((userSetDrain ⟨0, 1⟩ 0).smu_drain = 0 ∧ (userSetDrain ⟨0, 1⟩ 0).smu_gate = otherIdx 0) ∧
    ((applySelEvent ⟨0, 1⟩ (true, 1)).smu_gate ≠ (applySelEvent ⟨0, 1⟩ (true, 1)).smu_drain) :=
  ⟨smu_selector_exclusive.1 1 0 0 (by decide),
   smu_selector_exclusive.2.1 0 1 0 (by decide),
   smu_selector_exclusive.2.2.1 0 1 1 true (by decide)⟩

/-- C5: the measurement thread is started exactly when the Keithley is not
busy, a sweep tab is selected, and the integration time lies strictly between
`0.001 / freq` and `25.0 / freq`; when the bounds fail (and the earlier guards
pass) a parameter-error dialog is shown and nothing is started. -/
theorem sweep_click_validation :
    ∀ (busy : Bool) (tabIndex : Nat) (tInt freq : ℚ),
      (on_sweep_clicked busy tabIndex tInt freq = SweepClickOutcome.measurementStarted ↔
        busy = false ∧ tabIndex < 3 ∧ 0.001 / freq < tInt ∧ tInt < 25.0 / freq) ∧
      (busy = false → tabIndex < 3 → ¬(0.001 / freq < tInt ∧ tInt < 25.0 / freq) →
        on_sweep_clicked busy tabIndex tInt freq = SweepClickOutcome.paramErrorDialog) := by
  intro busy tabIndex tInt freq
  cases busy <;> simp only [on_sweep_clicked] <;> split_ifs <;> simp_all

/-- Witness for `sweep_click_validation` at concrete inputs. -/
theorem sweep_click_validation_witness :
    on_sweep_clicked false 0 (1/10) 50 = SweepClickOutcome.measurementStarted ∧
    on_sweep_clicked false 0 100 50 = SweepClickOutcome.paramErrorDialog :=
  ⟨((sweep_click_validation false 0 (1/10) 50).1).mpr
      ⟨rfl, by norm_num, by norm_num, by norm_num⟩,
   (sweep_click_validation false 0 100 50).2 rfl (by norm_num) (by norm_num)⟩

/-- C3: every run of `MeasureThread.run` delivers exactly one result signal:
`finished_sig` with the result table when the driver calls for the selected
sweep shape (and the trailing beep/reset) complete without raising, and
`error_sig` with the raised exception when any step raises. -/
theorem measure_thread_one_result_signal :
    ∀ (st : SweepType) (env : MeasureEnv),
      ((MeasureThread_run st env).filter isResultSignal).length = 1 ∧
      (stepsOk st env →
        ∃ t, (MeasureThread_run st env).filter isResultSignal =
          [MeasureSignal.finished_sig t]) ∧
      (¬ stepsOk st env →
        ∃ e, (MeasureThread_run st env).filter isResultSignal =
          [MeasureSignal.error_sig e]) := by
  intro st env
  obtain ⟨tr, outp, ivr, beep, reset⟩ := env
  cases st with
  | transfer =>
    cases tr <;> cases beep <;> cases reset <;>
      simp_all [MeasureThread_run, measureBody, sweepCall, stepsOk, isResultSignal,
        Except.map]
  | output =>
    cases outp <;> cases beep <;> cases reset <;>
      simp_all [MeasureThread_run, measureBody, sweepCall, stepsOk, isResultSignal,
        Except.map]
  | iv =>
    cases ivr <;> cases beep <;> cases reset <;>
      simp_all [MeasureThread_run, measureBody, sweepCall, stepsOk, isResultSignal,
        Except.map]

/-- Witness for `measure_thread_one_result_signal` at concrete inputs. -/
theorem measure_thread_one_result_signal_witness :
    ∃ t, (MeasureThread_run SweepType.transfer
        ⟨Except.ok ⟨[], [], []⟩, Except.ok ⟨[], [], []⟩, Except.ok ([], []),
         Except.ok (), Except.ok ()⟩).filter isResultSignal =
      [MeasureSignal.finished_sig t] :=
  (measure_thread_one_result_signal SweepType.transfer
    ⟨Except.ok ⟨[], [], []⟩, Except.ok ⟨[], [], []⟩, Except.ok ([], []),
     Except.ok (), Except.ok ()⟩).2.1 ⟨⟨_, rfl⟩, rfl, rfl⟩

/-- C1: in the real-device loop the consecutive-error counter is reset to 0
by a successful read and incremented by each failed read; an error-outcome
iteration emits `error_sig` and breaks exactly when the incremented counter
reaches `max_consecutive_errors = 3`; and over a whole run started with a
zero counter, `error_sig` is emitted iff the polled schedule contains three
consecutive live failed reads — with fewer than three consecutive errors the
loop keeps sampling. -/
theorem realtime_error_retry :
    (∀ st t v i, ((rtRealStep st (ReadOutcome.okRead t v i)).1).consecutive_errors = 0 ∧
      (rtRealStep st (ReadOutcome.okRead t v i)).2.2 = true ∧
      emitsError (rtRealStep st (ReadOutcome.okRead t v i)).2.1 = false) ∧
    (∀ st m, ((rtRealStep st (ReadOutcome.visaError m)).1).consecutive_errors =
        st.consecutive_errors + 1 ∧
      ((rtRealStep st (ReadOutcome.visaError m)).2.2 = false ↔
        max_consecutive_errors ≤ st.consecutive_errors + 1) ∧
      (emitsError (rtRealStep st (ReadOutcome.visaError m)).2.1 = true ↔
        max_consecutive_errors ≤ st.consecutive_errors + 1)) ∧
    (∀ st m, ((rtRealStep st (ReadOutcome.otherError m)).1).consecutive_errors =
        st.consecutive_errors + 1 ∧
      ((rtRealStep st (ReadOutcome.otherError m)).2.2 = false ↔
        max_consecutive_errors ≤ st.consecutive_errors + 1) ∧
      (emitsError (rtRealStep st (ReadOutcome.otherError m)).2.1 = true ↔
        max_consecutive_errors ≤ st.consecutive_errors + 1)) ∧
    (∀ schedule : List RTEntry,
      emitsError (rtLoopReal schedule rtInitState) = true ↔
        ThreeConsecutiveErrors schedule) := by
  refine ⟨?_, ?_, ?_, ?_⟩
  · intro st t v i
    exact ⟨rfl, rfl, rfl⟩
  · intro st m
    refine ⟨?_, ?_, ?_⟩ <;>
      · simp only [rtRealStep]
        split <;> simp_all [emitsError, isErrorSig]
  · intro st m
    refine ⟨?_, ?_, ?_⟩ <;>
      · simp only [rtRealStep]
        split <;> simp_all [emitsError, isErrorSig]
  · intro schedule
    have h := rtLoopReal_emitsError_general schedule rtInitState (Nat.zero_le 2)
    simpa [rtInitState] using h

/-- C6 (helpers): the loops emit no `finished_sig` themselves. -/
lemma countFinished_rtLoopReal (l : List RTEntry) :
    ∀ st, countFinished (rtLoopReal l st) = 0 := by
  induction l with
  | nil => intro st; rfl
  | cons x rest ih =>
    intro st
    obtain ⟨flag, o⟩ := x
    cases flag with
    | false => rfl
    | true =>
      cases o with
      | okRead t v i =>
        rw [rtLoopReal_cons_ok]
        simpa [countFinished] using ih _
      | visaError m =>
        by_cases hc : st.consecutive_errors + 1 < 3
        · rw [rtLoopReal_cons_err_continue (ReadOutcome.visaError m) rest st rfl hc]
          exact ih _
        · simp only [rtLoopReal, rtRealStep]
          have hy : max_consecutive_errors ≤ st.consecutive_errors + 1 := by
            simp only [max_consecutive_errors]
            omega
          simp [hy, countFinished]
      | otherError m =>
        by_cases hc : st.consecutive_errors + 1 < 3
        · rw [rtLoopReal_cons_err_continue (ReadOutcome.otherError m) rest st rfl hc]
          exact ih _
        · simp only [rtLoopReal, rtRealStep]
          have hy : max_consecutive_errors ≤ st.consecutive_errors + 1 := by
            simp only [max_consecutive_errors]
            omega
          simp [hy, countFinished]

lemma countFinished_runSimLoop (interval : ℚ) (ticks : List SimTick) :
    ∀ t st, countFinished (runSimLoop interval ticks t st) = 0 := by
  induction ticks with
  | nil => intro t st; rfl
  | cons tick rest ih =>
    intro t st
    by_cases hr : tick.running
    · simp only [runSimLoop, hr, if_true]
      simpa [countFinished] using ih _ _
    · simp [runSimLoop, hr, countFinished]

/-- C6: cancellation is a polled flag — once an iteration polls
`running = false` the loops execute no further iterations, so the signals are
those of the schedule prefix before the first false poll; and `run` emits
`finished_sig` exactly once, however the loop ended (cancellation, error
threshold, guard failure, or simulation mode). -/
theorem realtime_stop_flag_and_finished :
    (∀ (l1 : List RTEntry) (o : ReadOutcome) (l2 : List RTEntry) (st : RTState),
      rtLoopReal (l1 ++ (false, o) :: l2) st = rtLoopReal l1 st) ∧
    (∀ (interval : ℚ) (l1 : List SimTick) (tick : SimTick) (l2 : List SimTick)
        (t : ℚ) (st : RTState), tick.running = false →
      runSimLoop interval (l1 ++ tick :: l2) t st = runSimLoop interval l1 t st) ∧
    (∀ (simulation_mode connected smuValid : Bool) (interval : ℚ)
        (ticks : List SimTick) (schedule : List RTEntry),
      countFinished (RealtimeMeasureThread_run simulation_mode connected smuValid
        interval ticks schedule) = 1) := by
  refine ⟨?_, ?_, ?_⟩
  · intro l1 o l2
    induction l1 with
    | nil => intro st; rfl
    | cons x rest ih =>
      intro st
      obtain ⟨flag, o1⟩ := x
      cases flag with
      | false => rfl
      | true =>
        simp only [List.cons_append, rtLoopReal]
        split
        · simp only [List.append_eq]
          rw [ih]
        · rfl
  · intro interval l1 tick l2 t st hdead
    induction l1 generalizing t st with
    | nil => simp [runSimLoop, hdead]
    | cons x rest ih =>
      by_cases hr : x.running
      · simp only [List.cons_append, runSimLoop, hr, if_true, List.append_eq]
        rw [ih]
      · simp [runSimLoop, hr]
  · intro sm conn smv interval ticks schedule
    have happ : ∀ sigs : List RTSignal,
        countFinished (sigs ++ [RTSignal.finished_sig]) = countFinished sigs + 1 := by
      intro sigs
      simp [countFinished, List.filter_append]
    cases sm with
    | true =>
      simp only [RealtimeMeasureThread_run, if_true]
      rw [happ]
      rw [show _run_simulation interval ticks = runSimLoop interval ticks 0 rtInitState
        from rfl]
      rw [countFinished_runSimLoop]
    | false =>
      cases conn with
      | false =>
        simp only [RealtimeMeasureThread_run]
        rw [happ]
        rfl
      | true =>
        cases smv with
        | false =>
          simp only [RealtimeMeasureThread_run]
          rw [happ]
          rfl
        | true =>
          simp only [RealtimeMeasureThread_run]
          rw [happ]
          simp [countFinished_rtLoopReal]

lemma dataPayloads_nil : dataPayloads [] = [] := rfl

lemma dataPayloads_cons_data (p : Payload) (sigs : List RTSignal) :
    dataPayloads (RTSignal.data_sig p :: sigs) = p :: dataPayloads sigs := rfl

lemma dataPayloads_cons_error (e : String) (sigs : List RTSignal) :
    dataPayloads (RTSignal.error_sig e :: sigs) = dataPayloads sigs := rfl

lemma runSimLoop_cons_live (interval : ℚ) (tick : SimTick) (rest : List SimTick)
    (t : ℚ) (st : RTState) (hr : tick.running = true) :
    runSimLoop interval (tick :: rest) t st =
      RTSignal.data_sig (mkPayload
          (appendSample st t tick.voltage
            (simCurrent tick.voltage tick.sinVal tick.noiseVal))
          t tick.voltage (simCurrent tick.voltage tick.sinVal tick.noiseVal)) ::
        runSimLoop interval rest (t + interval)
          (appendSample st t tick.voltage
            (simCurrent tick.voltage tick.sinVal tick.noiseVal)) := by
  simp [runSimLoop, hr]

lemma runSimLoop_cons_dead (interval : ℚ) (tick : SimTick) (rest : List SimTick)
    (t : ℚ) (st : RTState) (hr : tick.running = false) :
    runSimLoop interval (tick :: rest) t st = [] := by
  simp [runSimLoop, hr]

lemma mkPayload_append_shape (st : RTState) (t v i : ℚ) (L : ℕ)
    (h1 : st.time_data.length = L) (h2 : st.voltage_data.length = L)
    (h3 : st.current_data.length = L) :
    (mkPayload (appendSample st t v i) t v i).time.length = L + 1 ∧
    (mkPayload (appendSample st t v i) t v i).voltage.length = L + 1 ∧
    (mkPayload (appendSample st t v i) t v i).current.length = L + 1 ∧
    (mkPayload (appendSample st t v i) t v i).time.getLast? =
      some (mkPayload (appendSample st t v i) t v i).last_value.1 ∧
    (mkPayload (appendSample st t v i) t v i).voltage.getLast? =
      some (mkPayload (appendSample st t v i) t v i).last_value.2.1 ∧
    (mkPayload (appendSample st t v i) t v i).current.getLast? =
      some (mkPayload (appendSample st t v i) t v i).last_value.2.2 := by
  refine ⟨?_, ?_, ?_, ?_, ?_, ?_⟩ <;>
    simp [mkPayload, appendSample, h1, h2, h3, List.getLast?_concat]

lemma runSimLoop_payload_shape (interval : ℚ) :
    ∀ (ticks : List SimTick) (t0 : ℚ) (st : RTState) (L : ℕ),
      st.time_data.length = L → st.voltage_data.length = L →
      st.current_data.length = L →
      ∀ (k : ℕ) (p : Payload),
        (dataPayloads (runSimLoop interval ticks t0 st))[k]? = some p →
        p.time.length = L + k + 1 ∧ p.voltage.length = L + k + 1 ∧
          p.current.length = L + k + 1 ∧
          p.time.getLast? = some p.last_value.1 ∧
          p.voltage.getLast? = some p.last_value.2.1 ∧
          p.current.getLast? = some p.last_value.2.2 := by
  intro ticks
  induction ticks with
  | nil =>
    intro t0 st L h1 h2 h3 k p hp
    simp [runSimLoop, dataPayloads] at hp
  | cons tick rest ih =>
    intro t0 st L h1 h2 h3 k p hp
    by_cases hr : tick.running
    · rw [runSimLoop_cons_live interval tick rest t0 st hr,
        dataPayloads_cons_data] at hp
      cases k with
      | zero =>
        rw [List.getElem?_cons_zero] at hp
        injection hp with hp
        subst hp
        simpa using mkPayload_append_shape st t0 tick.voltage _ L h1 h2 h3
      | succ k =>
        rw [List.getElem?_cons_succ] at hp
        have hih := ih (t0 + interval) _ (L + 1)
          (by simp [appendSample, h1]) (by simp [appendSample, h2])
          (by simp [appendSample, h3]) k p hp
        obtain ⟨a, b, c, d, e, f⟩ := hih
        exact ⟨by omega, by omega, by omega, d, e, f⟩
    · rw [runSimLoop_cons_dead interval tick rest t0 st (by simpa using hr)] at hp
      simp [dataPayloads] at hp

lemma rtLoopReal_payload_shape :
    ∀ (l : List RTEntry) (st : RTState) (L : ℕ),
      st.time_data.length = L → st.voltage_data.length = L →
      st.current_data.length = L →
      ∀ (k : ℕ) (p : Payload),
        (dataPayloads (rtLoopReal l st))[k]? = some p →
        p.time.length = L + k + 1 ∧ p.voltage.length = L + k + 1 ∧
          p.current.length = L + k + 1 ∧
          p.time.getLast? = some p.last_value.1 ∧
          p.voltage.getLast? = some p.last_value.2.1 ∧
          p.current.getLast? = some p.last_value.2.2 := by
  intro l
  induction l with
  | nil =>
    intro st L h1 h2 h3 k p hp
    simp [rtLoopReal, dataPayloads] at hp
  | cons x rest ih =>
    intro st L h1 h2 h3 k p hp
    obtain ⟨flag, o⟩ := x
    cases flag with
    | false =>
      rw [rtLoopReal_cons_false] at hp
      simp [dataPayloads] at hp
    | true =>
      cases o with
      | okRead t v i =>
        rw [rtLoopReal_cons_ok, dataPayloads_cons_data] at hp
        cases k with
        | zero =>
          rw [List.getElem?_cons_zero] at hp
          injection hp with hp
          subst hp
          simpa using mkPayload_append_shape st t v i L h1 h2 h3
        | succ k =>
          rw [List.getElem?_cons_succ] at hp
          have hih := ih _ (L + 1)
            (by simp [appendSample, h1]) (by simp [appendSample, h2])
            (by simp [appendSample, h3]) k p hp
          obtain ⟨a, b, c, d, e, f⟩ := hih
          exact ⟨by omega, by omega, by omega, d, e, f⟩
      | visaError m =>
        by_cases hc : st.consecutive_errors + 1 < 3
        · rw [rtLoopReal_cons_err_continue (ReadOutcome.visaError m) rest st rfl hc] at hp
          exact ih { st with consecutive_errors := st.consecutive_errors + 1 } L
            h1 h2 h3 k p hp
        · simp only [rtLoopReal, rtRealStep] at hp
          have hy : max_consecutive_errors ≤ st.consecutive_errors + 1 := by
            simp only [max_consecutive_errors]
            omega
          simp [hy, dataPayloads] at hp
      | otherError m =>
        by_cases hc : st.consecutive_errors + 1 < 3
        · rw [rtLoopReal_cons_err_continue (ReadOutcome.otherError m) rest st rfl hc] at hp
          exact ih { st with consecutive_errors := st.consecutive_errors + 1 } L
            h1 h2 h3 k p hp
        · simp only [rtLoopReal, rtRealStep] at hp
          have hy : max_consecutive_errors ≤ st.consecutive_errors + 1 := by
            simp only [max_consecutive_errors]
            omega
          simp [hy, dataPayloads] at hp

lemma runSimLoop_payload_last (interval : ℚ) :
    ∀ (ticks : List SimTick) (t0 : ℚ) (st : RTState) (k : ℕ) (p : Payload),
      (dataPayloads (runSimLoop interval ticks t0 st))[k]? = some p →
      ∃ tick, ticks[k]? = some tick ∧ tick.running = true ∧
        p.last_value = (t0 + k * interval, tick.voltage,
          simCurrent tick.voltage tick.sinVal tick.noiseVal) := by
  intro ticks
  induction ticks with
  | nil =>
    intro t0 st k p hp
    simp [runSimLoop, dataPayloads] at hp
  | cons tick rest ih =>
    intro t0 st k p hp
    by_cases hr : tick.running
    · rw [runSimLoop_cons_live interval tick rest t0 st hr,
        dataPayloads_cons_data] at hp
      cases k with
      | zero =>
        rw [List.getElem?_cons_zero] at hp
        injection hp with hp
        subst hp
        refine ⟨tick, by simp, hr, ?_⟩
        simp [mkPayload]
      | succ k =>
        rw [List.getElem?_cons_succ] at hp
        obtain ⟨tk, htk, hrun, hlast⟩ := ih (t0 + interval) _ k p hp
        refine ⟨tk, by simpa using htk, hrun, ?_⟩
        rw [hlast]
        congr 1
        push_cast
        ring
    · rw [runSimLoop_cons_dead interval tick rest t0 st (by simpa using hr)] at hp
      simp [dataPayloads] at hp

lemma rtLoopReal_payload_mem :
    ∀ (l : List RTEntry) (st : RTState) (p : Payload),
      RTSignal.data_sig p ∈ rtLoopReal l st →
      ∃ t v i, (true, ReadOutcome.okRead t v i) ∈ l ∧ p.last_value = (t, v, i) := by
  intro l
  induction l with
  | nil =>
    intro st p hp
    simp [rtLoopReal] at hp
  | cons x rest ih =>
    intro st p hp
    obtain ⟨flag, o⟩ := x
    cases flag with
    | false =>
      rw [rtLoopReal_cons_false] at hp
      simp at hp
    | true =>
      cases o with
      | okRead t v i =>
        rw [rtLoopReal_cons_ok] at hp
        rcases List.mem_cons.mp hp with hp | hp
        · refine ⟨t, v, i, List.mem_cons_self _ _, ?_⟩
          have := (RTSignal.data_sig.injEq ..).mp hp
          rw [this]
          rfl
        · obtain ⟨t', v', i', hmem, hlast⟩ := ih _ p hp
          exact ⟨t', v', i', List.mem_cons_of_mem _ hmem, hlast⟩
      | visaError m =>
        by_cases hc : st.consecutive_errors + 1 < 3
        · rw [rtLoopReal_cons_err_continue (ReadOutcome.visaError m) rest st rfl hc] at hp
          obtain ⟨t', v', i', hmem, hlast⟩ := ih _ p hp
          exact ⟨t', v', i', List.mem_cons_of_mem _ hmem, hlast⟩
        · simp only [rtLoopReal, rtRealStep] at hp
          have hy : max_consecutive_errors ≤ st.consecutive_errors + 1 := by
            simp only [max_consecutive_errors]
            omega
          simp [hy] at hp
      | otherError m =>
        by_cases hc : st.consecutive_errors + 1 < 3
        · rw [rtLoopReal_cons_err_continue (ReadOutcome.otherError m) rest st rfl hc] at hp
          obtain ⟨t', v', i', hmem, hlast⟩ := ih _ p hp
          exact ⟨t', v', i', List.mem_cons_of_mem _ hmem, hlast⟩
        · simp only [rtLoopReal, rtRealStep] at hp
          have hy : max_consecutive_errors ≤ st.consecutive_errors + 1 := by
            simp only [max_consecutive_errors]
            omega
          simp [hy] at hp

/-- Witness for `realtime_stop_flag_and_finished` at concrete inputs. -/
theorem realtime_stop_flag_and_finished_witness :
    runSimLoop 1 ([⟨true, 1, 0, 0⟩] ++ ⟨false, 0, 0, 0⟩ :: [⟨true, 2, 0, 0⟩]) 0 rtInitState =
      runSimLoop 1 [⟨true, 1, 0, 0⟩] 0 rtInitState ∧
    rtLoopReal ([] ++ (false, ReadOutcome.okRead 0 0 0) :: []) rtInitState =
      rtLoopReal [] rtInitState ∧
    countFinished (RealtimeMeasureThread_run true true true 1 [] []) = 1 :=
  ⟨realtime_stop_flag_and_finished.2.1 1 [⟨true, 1, 0, 0⟩] ⟨false, 0, 0, 0⟩
      [⟨true, 2, 0, 0⟩] 0 rtInitState rfl,
   realtime_stop_flag_and_finished.1 [] (ReadOutcome.okRead 0 0 0) [] rtInitState,
   realtime_stop_flag_and_finished.2.2 true true true 1 [] []⟩

/-- C10: every payload emitted on `data_sig` — in simulation and in
real-device mode — has `"time"`, `"voltage"` and `"current"` lists of one
common length `k + 1` where `k` is the number of earlier emissions of the
run (so the lists grow by exactly one sample per emission, starting at 1),
and `"last_value"` is the triple of the three lists' last elements. -/
theorem realtime_payload_invariants :
    (∀ (interval : ℚ) (ticks : List SimTick) (k : ℕ) (p : Payload),
      (dataPayloads (_run_simulation interval ticks))[k]? = some p →
        p.time.length = k + 1 ∧ p.voltage.length = k + 1 ∧
          p.current.length = k + 1 ∧
          p.time.getLast? = some p.last_value.1 ∧
          p.voltage.getLast? = some p.last_value.2.1 ∧
          p.current.getLast? = some p.last_value.2.2) ∧
    (∀ (schedule : List RTEntry) (k : ℕ) (p : Payload),
      (dataPayloads (rtLoopReal schedule rtInitState))[k]? = some p →
        p.time.length = k + 1 ∧ p.voltage.length = k + 1 ∧
          p.current.length = k + 1 ∧
          p.time.getLast? = some p.last_value.1 ∧
          p.voltage.getLast? = some p.last_value.2.1 ∧
          p.current.getLast? = some p.last_value.2.2) := by
  constructor
  · intro interval ticks k p hp
    obtain ⟨a, b, c, d, e, f⟩ :=
      runSimLoop_payload_shape interval ticks 0 rtInitState 0 rfl rfl rfl k p hp
    exact ⟨by omega, by omega, by omega, d, e, f⟩
  · intro schedule k p hp
    obtain ⟨a, b, c, d, e, f⟩ :=
      rtLoopReal_payload_shape schedule rtInitState 0 rfl rfl rfl k p hp
    exact ⟨by omega, by omega, by omega, d, e, f⟩

/-- Witness for `realtime_payload_invariants` at a concrete one-tick run. -/
theorem realtime_payload_invariants_witness :
    (mkPayload (appendSample rtInitState 0 1 (simCurrent 1 0 0)) 0 1
        (simCurrent 1 0 0)).time.length = 0 + 1 ∧
    (mkPayload (appendSample rtInitState 0 1 (simCurrent 1 0 0)) 0 1
        (simCurrent 1 0 0)).voltage.length = 0 + 1 ∧
    (mkPayload (appendSample rtInitState 0 1 (simCurrent 1 0 0)) 0 1
        (simCurrent 1 0 0)).current.length = 0 + 1 ∧
    (mkPayload (appendSample rtInitState 0 1 (simCurrent 1 0 0)) 0 1
        (simCurrent 1 0 0)).time.getLast? =
      some (mkPayload (appendSample rtInitState 0 1 (simCurrent 1 0 0)) 0 1
        (simCurrent 1 0 0)).last_value.1 ∧
    (mkPayload (appendSample rtInitState 0 1 (simCurrent 1 0 0)) 0 1
        (simCurrent 1 0 0)).voltage.getLast? =
      some (mkPayload (appendSample rtInitState 0 1 (simCurrent 1 0 0)) 0 1
        (simCurrent 1 0 0)).last_value.2.1 ∧
    (mkPayload (appendSample rtInitState 0 1 (simCurrent 1 0 0)) 0 1
        (simCurrent 1 0 0)).current.getLast? =
      some (mkPayload (appendSample rtInitState 0 1 (simCurrent 1 0 0)) 0 1
        (simCurrent 1 0 0)).last_value.2.2 :=
  realtime_payload_invariants.1 1 [⟨true, 1, 0, 0⟩] 0 _ (by
    rw [show _run_simulation 1 [⟨true, 1, 0, 0⟩] =
      runSimLoop 1 [⟨true, 1, 0, 0⟩] 0 rtInitState from rfl,
      runSimLoop_cons_live 1 ⟨true, 1, 0, 0⟩ [] 0 rtInitState rfl,
      dataPayloads_cons_data]
    simp)

/-- C2: `on_start_realtime_clicked` creates the thread with
`simulation_mode = not keithley.connected`; with `simulation_mode = true`,
`run` executes only `_run_simulation` (its signals do not depend on the
instrument-read schedule), whose every emitted current sample follows the
noisy-sine formula `baseline + |v| * 2e-6 + amplitude * sin + uniform-noise *
amplitude`; with `simulation_mode = false` and a connected instrument the
loop instead runs the real-device sampling loop, every emitted sample of
which comes from an `smu.measure.v()` / `smu.measure.i()` read of the
schedule. -/
theorem realtime_simulation_dispatch :
    (∀ (smu_name : String) (connected applyVoltageOk cancelClicked b : Bool),
      on_start_realtime_clicked smu_name connected applyVoltageOk cancelClicked =
          some b →
        b = !connected) ∧
    (∀ (smu_name : String) (applyVoltageOk : Bool), smu_name ≠ "--" →
      on_start_realtime_clicked smu_name false applyVoltageOk false = some true) ∧
    (∀ (connected smuValid : Bool) (interval : ℚ) (ticks : List SimTick)
        (schedule schedule2 : List RTEntry),
      RealtimeMeasureThread_run true connected smuValid interval ticks schedule =
        _run_simulation interval ticks ++ [RTSignal.finished_sig] ∧
      RealtimeMeasureThread_run true connected smuValid interval ticks schedule =
        RealtimeMeasureThread_run true connected smuValid interval ticks schedule2) ∧
    (∀ v s n, simCurrent v s n =
      sim_baseline + |v| * (2 / 1000000) + sim_amplitude * s + n * sim_amplitude) ∧
    (∀ (interval : ℚ) (ticks : List SimTick) (k : ℕ) (p : Payload),
      (dataPayloads (_run_simulation interval ticks))[k]? = some p →
        ∃ tick, ticks[k]? = some tick ∧ tick.running = true ∧
          p.last_value = (k * interval, tick.voltage,
            simCurrent tick.voltage tick.sinVal tick.noiseVal)) ∧
    (∀ (interval : ℚ) (ticks : List SimTick) (schedule : List RTEntry),
      RealtimeMeasureThread_run false true true interval ticks schedule =
        rtLoopReal schedule rtInitState ++ [RTSignal.finished_sig]) ∧
    (∀ (schedule : List RTEntry) (p : Payload),
      RTSignal.data_sig p ∈ rtLoopReal schedule rtInitState →
        ∃ t v i, (true, ReadOutcome.okRead t v i) ∈ schedule ∧
          p.last_value = (t, v, i)) := by
  refine ⟨?_, ?_, ?_, fun v s n => rfl, ?_, fun interval ticks schedule => rfl, ?_⟩
  · intro smu_name connected applyVoltageOk cancelClicked b h
    simp only [on_start_realtime_clicked] at h
    split_ifs at h <;> simp_all
  · intro smu_name applyVoltageOk h
    simp [on_start_realtime_clicked, h]
  · intro connected smuValid interval ticks schedule schedule2
    exact ⟨rfl, rfl⟩
  · intro interval ticks k p hp
    obtain ⟨tick, htick, hrun, hlast⟩ :=
      runSimLoop_payload_last interval ticks 0 rtInitState k p hp
    refine ⟨tick, htick, hrun, ?_⟩
    rw [hlast, zero_add]
  · intro schedule p hp
    exact rtLoopReal_payload_mem schedule rtInitState p hp

/-- Witness for `realtime_simulation_dispatch` at concrete inputs. -/
theorem realtime_simulation_dispatch_witness :
    (false = !true) ∧
    on_start_realtime_clicked "smu1" false true false = some true ∧
    (∃ tick, ([⟨true, 1, 0, 0⟩] : List SimTick)[0]? = some tick ∧
      tick.running = true ∧
      (mkPayload (appendSample rtInitState 0 1 (simCurrent 1 0 0)) 0 1
        (simCurrent 1 0 0)).last_value =
        (((0 : ℕ) : ℚ) * 1, tick.voltage,
          simCurrent tick.voltage tick.sinVal tick.noiseVal)) ∧
    (∃ t v i, (true, ReadOutcome.okRead t v i) ∈
        ([(true, ReadOutcome.okRead 0 1 2)] : List RTEntry) ∧
      (mkPayload (appendSample rtInitState 0 1 2) 0 1 2).last_value = (t, v, i)) :=
  ⟨realtime_simulation_dispatch.1 "smu1" true true false false (by decide),
   realtime_simulation_dispatch.2.1 "smu1" true (by decide),
   realtime_simulation_dispatch.2.2.2.2.1 1 [⟨true, 1, 0, 0⟩] 0
     (mkPayload (appendSample rtInitState 0 1 (simCurrent 1 0 0)) 0 1
       (simCurrent 1 0 0)) (by
     rw [show _run_simulation 1 [⟨true, 1, 0, 0⟩] =
       runSimLoop 1 [⟨true, 1, 0, 0⟩] 0 rtInitState from rfl,
       runSimLoop_cons_live 1 ⟨true, 1, 0, 0⟩ [] 0 rtInitState rfl,
       dataPayloads_cons_data]
     simp),
   realtime_simulation_dispatch.2.2.2.2.2.2 [(true, ReadOutcome.okRead 0 1 2)]
     (mkPayload (appendSample rtInitState 0 1 2) 0 1 2) (by
     rw [rtLoopReal_cons_ok]
     exact List.mem_cons_self _ _)⟩

lemma cvAfter_eq_lastWriteValue : ∀ (h : List CVEvent) (init : ℚ),
    cvAfter init h = lastWriteValue init h := by
  intro h
  induction h with
  | nil => intro init; rfl
  | cons e rest ih =>
    intro init
    cases e with
    | readEv =>
      rw [show cvAfter init (CVEvent.readEv :: rest) = cvAfter init rest from rfl, ih]
      simp [lastWriteValue, isWriteEv]
    | write v =>
      rw [show cvAfter init (CVEvent.write v :: rest) = cvAfter v rest from rfl, ih]
      simp only [lastWriteValue, List.filter_cons, isWriteEv, if_true]
      cases hl : rest.filter isWriteEv with
      | nil => simp
      | cons e2 l2 =>
        rw [List.getLast?_cons_cons]
        have hq : (e2 :: l2).getLast? =
            some ((e2 :: l2).getLast (List.cons_ne_nil e2 l2)) :=
          List.getLast?_eq_getLast_of_ne_nil _
        have hmem : (e2 :: l2).getLast (List.cons_ne_nil e2 l2) ∈
            rest.filter isWriteEv := by
          rw [hl]
          exact List.getLast_mem _
        have hw : isWriteEv ((e2 :: l2).getLast (List.cons_ne_nil e2 l2)) = true :=
          (List.mem_filter.mp hmem).2
        cases hg : (e2 :: l2).getLast (List.cons_ne_nil e2 l2) with
        | write w =>
          rw [hg] at hq
          rw [hq]
        | readEv =>
          rw [hg] at hw
          simp [isWriteEv] at hw

/-- C7 counterexample: the claim's closing conjunct — no shared mutable
state other than `current_voltage` is accessed by both threads — is false on
the code: `stop()` writes `running` from the UI thread while the sampling
loop polls it, and `running` is not `current_voltage`. -/
theorem mutex_shared_state_counterexample :
    ¬ (∀ v : ThreadSharedVar, accessesVar uiAccesses v = true →
        accessesVar run_simulation_accesses v = true →
        v = ThreadSharedVar.current_voltage) :=
  fun h =>
    absurd (h ThreadSharedVar.running (by decide) (by decide)) (by decide)

/-- C7 (amended): one mutex protects the shared voltage setpoint
`current_voltage` — every access to it from either thread holds the thread's
mutex, and, the mutex serialising those accesses into an atomic-register
history, each simulation iteration reads the most recently written setpoint
value and emits exactly the value it read.  Besides `current_voltage`, the
state accessed by both threads is exactly the polled boolean `running`
flag (written unguarded by `stop`, polled unguarded by the loop). -/
theorem mutex_discipline :
    ((uiAccesses ++ run_simulation_accesses).all
      (fun a => a.var != ThreadSharedVar.current_voltage || a.underMutex) = true) ∧
    (∀ v : ThreadSharedVar,
      (accessesVar uiAccesses v = true ∧ accessesVar run_simulation_accesses v = true) ↔
        (v = ThreadSharedVar.current_voltage ∨ v = ThreadSharedVar.running)) ∧
    (∀ (h : List CVEvent) (init : ℚ), cvAfter init h = lastWriteValue init h) ∧
    (∀ (interval : ℚ) (ticks : List SimTick) (k : ℕ) (p : Payload),
      (dataPayloads (_run_simulation interval ticks))[k]? = some p →
        ∃ tick, ticks[k]? = some tick ∧ p.last_value.2.1 = tick.voltage) := by
  refine ⟨by decide, ?_, cvAfter_eq_lastWriteValue, ?_⟩
  · intro v
    cases v <;> decide
  · intro interval ticks k p hp
    obtain ⟨tick, htick, hrun, hlast⟩ :=
      runSimLoop_payload_last interval ticks 0 rtInitState k p hp
    exact ⟨tick, htick, by rw [hlast]⟩

/-- Witness for `mutex_discipline` at a concrete one-tick history. -/
theorem mutex_discipline_witness :
    ∃ tick, ([⟨true, 7, 0, 0⟩] : List SimTick)[0]? = some tick ∧
      (mkPayload (appendSample rtInitState 0 7 (simCurrent 7 0 0)) 0 7
        (simCurrent 7 0 0)).last_value.2.1 = tick.voltage :=
  mutex_discipline.2.2.2 1 [⟨true, 7, 0, 0⟩] 0
    (mkPayload (appendSample rtInitState 0 7 (simCurrent 7 0 0)) 0 7
      (simCurrent 7 0 0)) (by
    rw [show _run_simulation 1 [⟨true, 7, 0, 0⟩] =
      runSimLoop 1 [⟨true, 7, 0, 0⟩] 0 rtInitState from rfl,
      runSimLoop_cons_live 1 ⟨true, 7, 0, 0⟩ [] 0 rtInitState rfl,
      dataPayloads_cons_data]
    simp)

end KeithleyGui
